import Mathlib

/-!
Verification of the log-analyzer-cli core (src/index.js) against its
natural-language specification.

The JavaScript source is shallowly embedded here:
  - A log record (spec section 3, LogRecord) is an insertion-ordered mapping
    from field name to a scalar value (string, integer, boolean or null),
    modelled as an association list.  Host-level intrinsic properties of
    primitives (such as the length property of strings) and non-scalar nested
    JSON values are outside the model; no verified claim depends on them.
  - JavaScript objects used as counters are modelled as insertion-ordered
    association lists from string keys to counts; the special own-property
    iteration order of array-index-like keys is modelled separately where the
    source iterates an object (jsObjEntries below).
  - Numbers are modelled as Int/Nat; the one floating-point site
    (toFixed(2) in generateSummary) is modelled over the exact rational.
-/

/-- Scalar field value of a log record (spec section 3: string, integer or
raw text; booleans and null can additionally appear in JSON-format records). -/
inductive Prim where
  | pStr (s : String)
  | pInt (n : Int)
  | pBool (b : Bool)
  | pNull
deriving DecidableEq, Repr

/-- A parsed log record: insertion-ordered field mapping. -/
abbrev Entry := List (String × Prim)

/-- JavaScript truthiness of a field value: empty string, 0, false and null
are falsy, everything else truthy. -/
def truthy : Prim → Bool
  | .pStr s => s ≠ ""
  | .pInt n => n ≠ 0
  | .pBool b => b
  | .pNull => false

/-- JavaScript String(value) coercion of a scalar value. -/
def jsToString : Prim → String
  | .pStr s => s
  | .pInt n => toString n
  | .pBool b => if b then "true" else "false"
  | .pNull => "null"

/-- Property read entry[field]: none models undefined (absent field). -/
def getField (e : Entry) (f : String) : Option Prim :=
  (e.find? (fun p => p.1 == f)).map (fun p => p.2)

/-- Increment the counter for key k in an insertion-ordered counts object,
appending the key on first occurrence (counts[value] = (counts[value] or 0) + 1). -/
def bump (counts : List (String × Nat)) (k : String) : List (String × Nat) :=
  match counts with
  | [] => [(k, 1)]
  | (k', n) :: rest => if k' == k then (k', n + 1) :: rest else (k', n) :: bump rest k

/-- Read a counter back (0 when the key is absent). -/
def countOf (counts : List (String × Nat)) (k : String) : Nat :=
  ((counts.find? (fun p => p.1 == k)).map (fun p => p.2)).getD 0

/-- The string key an entry is counted under by aggregateByField:
entry[field] or the string unknown when the read is falsy
(missing field, 0, false, empty string, null), stringified. -/
def aggValue (e : Entry) (field : String) : String :=
  match getField e field with
  | some v => if truthy v then jsToString v else "unknown"
  | none => "unknown"

/-- src/index.js aggregateByField: fold every entry into an insertion-ordered
counts object keyed by the stringified field value. -/
def aggregateByField (entries : List Entry) (field : String) : List (String × Nat) :=
  entries.foldl (fun counts e => bump counts (aggValue e field)) []

/-- The predicate of the filter callback in src/index.js filterByStatus:
entry.status is truthy and statusCodes.includes(entry.status). -/
def statusKeep (codes : List Int) (e : Entry) : Bool :=
  match getField e "status" with
  | some v => truthy v && (match v with | .pInt n => codes.contains n | _ => false)
  | none => false

/-- src/index.js filterByStatus. -/
def filterByStatus (entries : List Entry) (statusCodes : List Int) : List Entry :=
  entries.filter (statusKeep statusCodes)

theorem bump_map_snd_sum (counts : List (String × Nat)) (k : String) :
    ((bump counts k).map (fun p => p.2)).sum = ((counts.map (fun p => p.2)).sum) + 1 := by
  induction counts with
  | nil => simp [bump]
  | cons a rest ih =>
    obtain ⟨k', n⟩ := a
    by_cases h : k' == k <;> simp [bump, h, ih] <;> omega

theorem agg_foldl_sum (field : String) (l : List Entry) :
    ∀ acc : List (String × Nat),
      (((l.foldl (fun c e => bump c (aggValue e field)) acc).map (fun p => p.2)).sum)
        = ((acc.map (fun p => p.2)).sum) + l.length := by
  induction l with
  | nil => intro acc; simp
  | cons e l ih =>
    intro acc
    simp only [List.foldl_cons, List.length_cons]
    rw [ih, bump_map_snd_sum]
    omega

/-- C9: the counts produced by aggregateByField sum to the number of entries;
every entry falls into exactly one bucket, including the unknown bucket. -/
theorem aggregateByField_counts_sum (entries : List Entry) (field : String) :
    ((aggregateByField entries field).map (fun p => p.2)).sum = entries.length := by
  have h := agg_foldl_sum field entries []
  simpa [aggregateByField] using h

theorem aggregateByField_counts_sum_witness :
    ((aggregateByField [[("level", Prim.pStr "info")], [], [("level", Prim.pInt 0)]] "level").map
      (fun p => p.2)).sum = 3 :=
  aggregateByField_counts_sum [[("level", Prim.pStr "info")], [], [("level", Prim.pInt 0)]] "level"

theorem countOf_bump (counts : List (String × Nat)) (k k' : String) :
    countOf (bump counts k) k' = countOf counts k' + (if k == k' then 1 else 0) := by
  induction counts with
  | nil =>
    simp only [bump, countOf, List.find?]
    by_cases h : k == k' <;> simp [h]
  | cons a rest ih =>
    obtain ⟨a1, n⟩ := a
    by_cases h : a1 == k
    · have hk : a1 = k := by simpa using h
      subst hk
      by_cases h2 : a1 == k' <;> simp [bump, countOf, List.find?, h2]
    · by_cases h2 : a1 == k'
      · have hk' : a1 = k' := by simpa using h2
        subst hk'
        have hne : ¬(k == a1) := by simp_all [BEq.comm]
        simp [bump, countOf, List.find?, h, h2, hne]
      · simp only [bump, h, if_false, countOf, List.find?, h2] at *
        simpa [countOf] using ih

theorem countOf_agg_foldl (field : String) (k : String) (l : List Entry) :
    ∀ acc : List (String × Nat),
      countOf (l.foldl (fun c e => bump c (aggValue e field)) acc) k
        = countOf acc k + (l.filter (fun e => aggValue e field == k)).length := by
  induction l with
  | nil => intro acc; simp
  | cons e l ih =>
    intro acc
    simp only [List.foldl_cons, List.filter_cons]
    rw [ih, countOf_bump]
    by_cases h : aggValue e field == k <;> simp [h]
    omega

theorem aggValue_unknown_iff (e : Entry) (field : String) :
    aggValue e field = "unknown" ↔
      (getField e field = none
        ∨ ∃ v, getField e field = some v ∧ (truthy v = false ∨ jsToString v = "unknown")) := by
  unfold aggValue
  cases h : getField e field with
  | none => simp
  | some v =>
    by_cases ht : truthy v
    · simp only [ht, if_true]
      constructor
      · intro hv; exact Or.inr ⟨v, rfl, Or.inr hv⟩
      · rintro (hnone | ⟨v', hv', (hf | hs)⟩)
        · exact absurd hnone (by simp)
        · cases Option.some.inj hv'; rw [ht] at hf; cases hf
        · cases Option.some.inj hv'; exact hs
    · simp only [Bool.not_eq_true] at ht
      simp only [ht, Bool.false_eq_true, if_false, true_iff]
      exact Or.inr ⟨v, rfl, Or.inl ht⟩

/-- C3 (amended): aggregateByField counts every entry under its bucket key:
the stringified field value when the field read is truthy, and the literal
key unknown exactly when the field is missing, its value is falsy
(0, false, empty string, null), or its value stringifies to unknown. -/
theorem aggregateByField_buckets (entries : List Entry) (field : String) (k : String) :
    countOf (aggregateByField entries field) k
        = (entries.filter (fun e => aggValue e field == k)).length
      ∧ ∀ e, aggValue e field = "unknown" ↔
          (getField e field = none
            ∨ ∃ v, getField e field = some v ∧ (truthy v = false ∨ jsToString v = "unknown")) := by
  constructor
  · have h := countOf_agg_foldl field k entries []
    simpa [aggregateByField, countOf] using h
  · intro e; exact aggValue_unknown_iff e field

theorem aggregateByField_buckets_witness :
    countOf (aggregateByField [[("level", Prim.pStr "info")]] "level") "info" = 1 :=
  (aggregateByField_buckets [[("level", Prim.pStr "info")]] "level" "info").1

/-- C3 counterexample: an entry whose level field is present with value 0 is
counted under the key unknown, not under its stringified value 0, refuting
the claim that present falsy values are counted under their own key. -/
theorem aggregateByField_claim_counterexample :
    aggregateByField [[("level", Prim.pInt 0)]] "level" = [("unknown", 1)]
      ∧ getField [("level", Prim.pInt 0)] "level" = some (Prim.pInt 0)
      ∧ countOf (aggregateByField [[("level", Prim.pInt 0)]] "level") "0" = 0 := by
  decide

theorem statusKeep_iff (codes : List Int) (e : Entry) :
    statusKeep codes e = true ↔
      ∃ n : Int, getField e "status" = some (Prim.pInt n) ∧ n ≠ 0 ∧ n ∈ codes := by
  unfold statusKeep
  cases h : getField e "status" with
  | none => simp
  | some v =>
    cases v with
    | pStr s => simp [truthy]
    | pBool b => simp [truthy]
    | pNull => simp [truthy]
    | pInt n =>
      simp only [truthy, Bool.and_eq_true, decide_eq_true_eq, List.elem_iff,
        Option.some.injEq]
      constructor
      · rintro ⟨hn, hm⟩; exact ⟨n, rfl, hn, hm⟩
      · rintro ⟨n', hn', h0, hm⟩
        cases Prim.pInt.inj hn'
        exact ⟨h0, hm⟩

/-- C2 (amended): filterByStatus returns the ordered subsequence of entries
whose status field is present with a truthy integer value that is a member of
statusCodes; entries whose status is missing or falsy (in particular status 0)
are excluded without error, and relative order is preserved. -/
theorem filterByStatus_spec (entries : List Entry) (codes : List Int) :
    (filterByStatus entries codes).Sublist entries
      ∧ filterByStatus entries codes = entries.filter (statusKeep codes)
      ∧ ∀ e, e ∈ filterByStatus entries codes ↔
          e ∈ entries ∧ ∃ n : Int, getField e "status" = some (Prim.pInt n) ∧ n ≠ 0 ∧ n ∈ codes := by
  refine ⟨List.filter_sublist entries, rfl, fun e => ?_⟩
  rw [filterByStatus, List.mem_filter, statusKeep_iff]

theorem filterByStatus_spec_witness :
    filterByStatus [[("status", Prim.pInt 404)], [("status", Prim.pInt 200)]] [404, 500]
      = [[("status", Prim.pInt 404)]] := by
  have h := (filterByStatus_spec [[("status", Prim.pInt 404)], [("status", Prim.pInt 200)]]
    [404, 500]).2.1
  rw [h]; decide

/-- C2 counterexample: an entry with status 0 is excluded by filterByStatus
even though its status field is present and 0 is a member of the status-code
set, refuting the claim that such an entry is always included. -/
theorem filterByStatus_claim_counterexample :
    filterByStatus [[("status", Prim.pInt 0)]] [0] = []
      ∧ getField [("status", Prim.pInt 0)] "status" = some (Prim.pInt 0)
      ∧ (0 : Int) ∈ [(0 : Int)] := by
  decide

/-- The codepoints of JavaScript whitespace outside the contiguous
U+2000 to U+200A block: space, tab, line feed, carriage return, vertical
tab, form feed, no-break space, ogham space mark, the two line separators,
narrow no-break space, medium mathematical space, ideographic space and the
byte-order mark. -/
def jsSpaceCodes : List Nat :=
  [32, 9, 10, 13, 11, 12, 0xa0, 0x1680, 0x2028, 0x2029, 0x202f, 0x205f, 0x3000, 0xfeff]

/-- JavaScript whitespace (the character class matched by backslash-s and
trimmed by String.prototype.trim). -/
def isJsSpace (c : Char) : Bool :=
  jsSpaceCodes.contains c.toNat || (0x2000 ≤ c.toNat && c.toNat ≤ 0x200a)

/-- content.split at every newline character, keeping empty segments, as the
host split does. -/
def splitNl : List Char → List (List Char)
  | [] => [[]]
  | c :: rest =>
    if c == '\n' then [] :: splitNl rest
    else
      match splitNl rest with
      | [] => [[c]]
      | line :: lines => (c :: line) :: lines

/-- A line is blank when trimming leaves nothing: all characters whitespace. -/
def isBlankLine (l : String) : Bool := l.toList.all isJsSpace

/-- The non-blank lines of the content, in order: the composition
content.split(newline).filter(l => l.trim()) used throughout src/index.js. -/
def jsLines (content : String) : List String :=
  ((splitNl content.toList).map (fun cs => String.mk cs)).filter (fun l => !isBlankLine l)

/-- Character classes occurring in the nginx/apache combined-format regexes. -/
inductive Cls where
  | nonSpace
  | nonRBracket
  | digit
  | dot
deriving DecidableEq, Repr

/-- Which characters each class matches; dot excludes line terminators. -/
def Cls.test : Cls → Char → Bool
  | .nonSpace, c => !isJsSpace c
  | .nonRBracket, c => c != ']'
  | .digit, c => '0' ≤ c && c ≤ '9'
  | .dot, c => !([10, 13, 0x2028, 0x2029].contains c.toNat)

/-- One token of the anchored combined-format regexes: a literal character, a
captured greedy plus of a class, a captured exact repetition, or a captured
lazy star. -/
inductive Tok where
  | lit (c : Char)
  | plusG (cls : Cls)
  | repE (n : Nat) (cls : Cls)
  | starL (cls : Cls)
deriving DecidableEq, Repr

/-- Length of the maximal prefix whose characters satisfy p. -/
def runLen (p : Char → Bool) : List Char → Nat
  | [] => 0
  | c :: rest => if p c then runLen p rest + 1 else 0

/-- First successful alternative among the attempts, in order. -/
def firstSome {α : Type} (f : Nat → Option α) : List Nat → Option α
  | [] => none
  | k :: ks => match f k with | some a => some a | none => firstSome f ks

/-- Candidate repetition counts for a greedy plus: longest first, at least
one. -/
def greedyOrder (m : Nat) : List Nat := (List.range m).reverse.map (fun k => k + 1)

/-- Backtracking matcher for an anchored token sequence, in the JavaScript
backtracking order: greedy quantifiers try the longest repetition first, lazy
quantifiers the shortest, and the first alternative whose continuation
matches to the end of the line wins.  Returns the captured substrings.  The
fuel argument only bounds the recursion depth (one unit per token). -/
def matchToksF : Nat → List Tok → List Char → Option (List String)
  | 0, _, _ => none
  | _, [], [] => some []
  | _, [], _ :: _ => none
  | _, Tok.lit _ :: _, [] => none
  | fuel + 1, Tok.lit c :: ts, d :: s => if d == c then matchToksF fuel ts s else none
  | fuel + 1, Tok.plusG cls :: ts, s =>
    firstSome
      (fun k => (matchToksF fuel ts (s.drop k)).map (fun caps => String.mk (s.take k) :: caps))
      (greedyOrder (runLen cls.test s))
  | fuel + 1, Tok.repE n cls :: ts, s =>
    if (s.take n).length == n && (s.take n).all cls.test then
      (matchToksF fuel ts (s.drop n)).map (fun caps => String.mk (s.take n) :: caps)
    else none
  | fuel + 1, Tok.starL cls :: ts, s =>
    firstSome
      (fun k => (matchToksF fuel ts (s.drop k)).map (fun caps => String.mk (s.take k) :: caps))
      (List.range (runLen cls.test s + 1))

/-- Anchored match of a token sequence with ample fuel. -/
def matchToks (ts : List Tok) (s : List Char) : Option (List String) :=
  matchToksF (ts.length + 1) ts s

/-- Token form of the anchored nginx combined-format regex of src/index.js
(both the detection pattern and the capture pattern of parseNginxLine). -/
def nginxToks : List Tok :=
  [Tok.plusG Cls.nonSpace, Tok.lit ' ', Tok.plusG Cls.nonSpace, Tok.lit ' ',
   Tok.plusG Cls.nonSpace, Tok.lit ' ', Tok.lit '[', Tok.plusG Cls.nonRBracket,
   Tok.lit ']', Tok.lit ' ', Tok.lit '"', Tok.plusG Cls.nonSpace, Tok.lit ' ',
   Tok.plusG Cls.nonSpace, Tok.lit ' ', Tok.plusG Cls.nonSpace, Tok.lit '"',
   Tok.lit ' ', Tok.repE 3 Cls.digit, Tok.lit ' ', Tok.plusG Cls.digit,
   Tok.lit ' ', Tok.lit '"', Tok.starL Cls.dot, Tok.lit '"', Tok.lit ' ',
   Tok.lit '"', Tok.starL Cls.dot, Tok.lit '"']

/-- Token form of the anchored Apache combined-format regex: the nginx
pattern without the two trailing quoted fields. -/
def apacheToks : List Tok :=
  [Tok.plusG Cls.nonSpace, Tok.lit ' ', Tok.plusG Cls.nonSpace, Tok.lit ' ',
   Tok.plusG Cls.nonSpace, Tok.lit ' ', Tok.lit '[', Tok.plusG Cls.nonRBracket,
   Tok.lit ']', Tok.lit ' ', Tok.lit '"', Tok.plusG Cls.nonSpace, Tok.lit ' ',
   Tok.plusG Cls.nonSpace, Tok.lit ' ', Tok.plusG Cls.nonSpace, Tok.lit '"',
   Tok.lit ' ', Tok.repE 3 Cls.digit, Tok.lit ' ', Tok.plusG Cls.digit]

/-- parseInt applied to an all-digit capture group. -/
def digitsToInt (s : String) : Int :=
  Int.ofNat (s.toList.foldl (fun acc c => acc * 10 + (c.toNat - '0'.toNat)) 0)

/-- src/index.js parseNginxLine: match the combined-format regex and build
the record; status and size parsed as integers, empty referer or user-agent
capture replaced by a dash. -/
def parseNginxLine (line : String) : Option Entry :=
  match matchToks nginxToks line.toList with
  | some [ip, ident, user, ts, meth, pth, proto, st, sz, ref, ua] =>
    some [("ip", Prim.pStr ip), ("identity", Prim.pStr ident), ("user", Prim.pStr user),
          ("timestamp", Prim.pStr ts), ("method", Prim.pStr meth), ("path", Prim.pStr pth),
          ("protocol", Prim.pStr proto), ("status", Prim.pInt (digitsToInt st)),
          ("size", Prim.pInt (digitsToInt sz)),
          ("referer", Prim.pStr (if ref == "" then "-" else ref)),
          ("userAgent", Prim.pStr (if ua == "" then "-" else ua))]
  | _ => none

/-- src/index.js parseApacheLine: as nginx minus referer and user-agent. -/
def parseApacheLine (line : String) : Option Entry :=
  match matchToks apacheToks line.toList with
  | some [ip, ident, user, ts, meth, pth, proto, st, sz] =>
    some [("ip", Prim.pStr ip), ("identity", Prim.pStr ident), ("user", Prim.pStr user),
          ("timestamp", Prim.pStr ts), ("method", Prim.pStr meth), ("path", Prim.pStr pth),
          ("protocol", Prim.pStr proto), ("status", Prim.pInt (digitsToInt st)),
          ("size", Prim.pInt (digitsToInt sz))]
  | _ => none

/-- A JSON value tree as produced by a strict ECMA-404 parse, modelling the
host JSON.parse.  A number carries its integer part; isInt is false when the
literal had a fraction or exponent part (such values fall outside the scalar
record model of spec section 3 and no claim exercises them). -/
inductive Jv where
  | jNull
  | jBool (b : Bool)
  | jNum (isInt : Bool) (n : Int)
  | jStr (s : String)
  | jArr (elems : List Jv)
  | jObj (fields : List (String × Jv))
deriving Repr

/-- JSON insignificant whitespace. -/
def jsonWs (c : Char) : Bool := [32, 9, 10, 13].contains c.toNat

def skipJsonWs (s : List Char) : List Char := s.dropWhile jsonWs

def hexVal (c : Char) : Option Nat :=
  let n := c.toNat
  if 48 ≤ n && n ≤ 57 then some (n - 48)
  else if 97 ≤ n && n ≤ 102 then some (n - 87)
  else if 65 ≤ n && n ≤ 70 then some (n - 55)
  else none

/-- The simple escape sequences of the JSON string grammar: marker character
paired with the character it denotes. -/
def jsonEscPairs : List (Char × Char) :=
  [('"', '"'), ('\\', '\\'), ('/', '/'), ('b', Char.ofNat 8), ('f', Char.ofNat 12),
   ('n', Char.ofNat 10), ('r', Char.ofNat 13), ('t', Char.ofNat 9)]

/-- Parse the remainder of a JSON string literal (the opening quote already
consumed), handling the escape sequences of the JSON grammar. -/
def parseJsonStr : Nat → List Char → Option (String × List Char)
  | 0, _ => none
  | _, [] => none
  | fuel + 1, c :: rest =>
    if c == '"' then some ("", rest)
    else
      let cont := fun (ch : Char) (r : List Char) =>
        (parseJsonStr fuel r).map (fun p => (String.mk (ch :: p.1.toList), p.2))
      if c == '\\' then
        match rest with
        | [] => none
        | e :: rest2 =>
          match (jsonEscPairs.find? (fun p => p.1 == e)).map (fun p => p.2) with
          | some ch => cont ch rest2
          | none =>
            if e == 'u' then
              let hs := rest2.take 4
              match hs.mapM hexVal with
              | some vs =>
                if vs.length == 4 then
                  cont (Char.ofNat (vs.foldl (fun a v => a * 16 + v) 0)) (rest2.drop 4)
                else none
              | none => none
            else none
      else if c.toNat < 0x20 then none
      else cont c rest

def isJsonDigit (c : Char) : Bool := '0' ≤ c && c ≤ '9'

def digitsVal (ds : List Char) : Nat :=
  ds.foldl (fun acc c => acc * 10 + (c.toNat - '0'.toNat)) 0

/-- Parse a JSON number literal: optional minus, integer part without leading
zeros, optional fraction and exponent. -/
def parseJsonNum (s : List Char) : Option (Jv × List Char) :=
  let (neg, s1) := match s with | '-' :: r => (true, r) | _ => (false, s)
  match s1 with
  | [] => none
  | c :: _ =>
    if !isJsonDigit c then none
    else
      let (intDs, s2) :=
        if c == '0' then ([c], s1.tail)
        else s1.span isJsonDigit
      let (okFrac, s3) :=
        match s2 with
        | '.' :: r =>
          let (fds, r') := r.span isJsonDigit
          (!fds.isEmpty, if fds.isEmpty then s2 else r')
        | _ => (true, s2)
      let hadFrac := s3 ≠ s2
      if !okFrac then none
      else
        let (okExp, s4) :=
          match s3 with
          | e :: r =>
            if e == 'e' || e == 'E' then
              let r2 := match r with | sg :: r' => if sg == '+' || sg == '-' then r' else r | [] => r
              let (eds, r3) := r2.span isJsonDigit
              (!eds.isEmpty, if eds.isEmpty then s3 else r3)
            else (true, s3)
          | [] => (true, s3)
        let hadExp := s4 ≠ s3
        if !okExp then none
        else
          let mag : Int := Int.ofNat (digitsVal intDs)
          some (Jv.jNum (!hadFrac && !hadExp) (if neg then -mag else mag), s4)

mutual

/-- Parse one JSON value (leading whitespace allowed), modelling the host
JSON.parse grammar; fuel bounds the recursion depth and member chains. -/
def parseJsonVal : Nat → List Char → Option (Jv × List Char)
  | 0, _ => none
  | fuel + 1, s =>
    match skipJsonWs s with
    | [] => none
    | c :: rest =>
      if c == '"' then (parseJsonStr fuel rest).map (fun p => (Jv.jStr p.1, p.2))
      else if c == '\x7b' then
        match skipJsonWs rest with
        | '\x7d' :: rest2 => some (Jv.jObj [], rest2)
        | rest2 => (parseJsonMembers fuel rest2).map (fun p => (Jv.jObj p.1, p.2))
      else if c == '[' then
        match skipJsonWs rest with
        | ']' :: rest2 => some (Jv.jArr [], rest2)
        | rest2 => (parseJsonElems fuel rest2).map (fun p => (Jv.jArr p.1, p.2))
      else if c == 't' then
        if rest.take 3 == "rue".toList then some (Jv.jBool true, rest.drop 3) else none
      else if c == 'f' then
        if rest.take 4 == "alse".toList then some (Jv.jBool false, rest.drop 4) else none
      else if c == 'n' then
        if rest.take 3 == "ull".toList then some (Jv.jNull, rest.drop 3) else none
      else parseJsonNum (c :: rest)

/-- Parse one or more comma-separated object members (at a position where a
member must start). -/
def parseJsonMembers : Nat → List Char → Option (List (String × Jv) × List Char)
  | 0, _ => none
  | fuel + 1, s =>
    match skipJsonWs s with
    | '"' :: rest =>
      match parseJsonStr fuel rest with
      | none => none
      | some (key, rest2) =>
        match skipJsonWs rest2 with
        | ':' :: rest3 =>
          match parseJsonVal fuel rest3 with
          | none => none
          | some (v, rest4) =>
            match skipJsonWs rest4 with
            | ',' :: rest5 =>
              (parseJsonMembers fuel rest5).map (fun p => ((key, v) :: p.1, p.2))
            | '\x7d' :: rest5 => some ([(key, v)], rest5)
            | _ => none
        | _ => none
    | _ => none

/-- Parse one or more comma-separated array elements. -/
def parseJsonElems : Nat → List Char → Option (List Jv × List Char)
  | 0, _ => none
  | fuel + 1, s =>
    match parseJsonVal fuel s with
    | none => none
    | some (v, rest) =>
      match skipJsonWs rest with
      | ',' :: rest2 => (parseJsonElems fuel rest2).map (fun p => (v :: p.1, p.2))
      | ']' :: rest2 => some ([v], rest2)
      | _ => none

end

/-- JSON.parse of one line: a single JSON element surrounded by optional
whitespace.  none models a thrown SyntaxError. -/
def jsonParse (line : String) : Option Jv :=
  match parseJsonVal (2 * line.length + 2) line.toList with
  | some (v, rest) => if (skipJsonWs rest).isEmpty then some v else none
  | none => none

/-- Convert a scalar JSON value to a record field value; nested objects,
arrays and non-integer numbers are outside the scalar record model of spec
section 3 and yield none (no claim exercises them). -/
def jvToPrim : Jv → Option Prim
  | .jNull => some Prim.pNull
  | .jBool b => some (Prim.pBool b)
  | .jNum true n => some (Prim.pInt n)
  | .jNum false _ => none
  | .jStr s => some (Prim.pStr s)
  | .jArr _ => none
  | .jObj _ => none

/-- Property assignment obj[key] = value: overwrite in place on a duplicate
key (keeping the original key position), append otherwise. -/
def setField (e : Entry) (k : String) (v : Prim) : Entry :=
  match e with
  | [] => [(k, v)]
  | (k', v') :: rest => if k' == k then (k, v) :: rest else (k', v') :: setField rest k v

/-- src/index.js parseJsonLine, restricted to the scalar record model: keep a
line only when it parses as a JSON object with scalar values.  The host also
keeps non-object JSON lines as entries (and a parsed null is dropped by the
entry filter of parseLogFile, exactly as here); no claim depends on such
lines.  Duplicate keys keep the last value, as host assignment does. -/
def parseJsonLine (line : String) : Option Entry :=
  match jsonParse line with
  | some (Jv.jObj fields) =>
    fields.foldl
      (fun acc kv =>
        match acc, jvToPrim kv.2 with
        | some e, some v => some (setField e kv.1 v)
        | _, _ => none)
      (some [])
  | _ => none

/-- src/index.js detectFormat: classify by the first non-blank line, trying
JSON, then the nginx pattern, then the Apache pattern, with fallback text. -/
def detectFormat (content : String) : String :=
  match jsLines content with
  | [] => "text"
  | firstLine :: _ =>
    if (jsonParse firstLine).isSome then "json"
    else if (matchToks nginxToks firstLine.toList).isSome then "nginx"
    else if (matchToks apacheToks firstLine.toList).isSome then "apache"
    else "text"

/-- The per-line dispatch of parseLogFile: the switch over the detected
format, whose text case and default case coincide. -/
def parseLine (fmt : String) (line : String) : Option Entry :=
  if fmt == "nginx" then parseNginxLine line
  else if fmt == "apache" then parseApacheLine line
  else if fmt == "json" then parseJsonLine line
  else some [("raw", Prim.pStr line)]

/-- The concrete format parseLogFile resolves to: the selector itself, or the
detected format when the selector is auto. -/
def resolvedFormat (content format : String) : String :=
  if format == "auto" then detectFormat content else format

/-- Result record of parseLogFile (spec section 3, ParsedLog). -/
structure ParsedLog where
  format : String
  entries : List Entry
  totalLines : Nat
  parsedEntries : Nat
deriving DecidableEq, Repr

/-- src/index.js parseLogFile, taking the file content directly (the
readFileSync call is the excluded I/O boundary): resolve the format, split
into non-blank lines, map the per-line parser over every line and drop the
null results, count lines and parsed entries. -/
def parseLogFile (content : String) (format : String) : ParsedLog :=
  let detectedFormat := resolvedFormat content format
  let lines := jsLines content
  let entries := (lines.map (parseLine detectedFormat)).filterMap id
  { format := detectedFormat, entries := entries,
    totalLines := lines.length, parsedEntries := entries.length }

theorem filterMap_id_map_some_sublist {α : Type} (l : List (Option α)) :
    ((l.filterMap id).map some).Sublist l := by
  induction l with
  | nil => simp
  | cons a t ih =>
    cases a with
    | none => simpa [List.filterMap_cons] using ih.cons none
    | some x => simpa [List.filterMap_cons] using ih.cons₂ (some x)

/-- C4: for every content and format selector, the result of parseLogFile
satisfies parsedEntries ≤ totalLines, totalLines equals the number of
non-blank lines of the input, parsedEntries equals the number of entries,
and the entries are the successful per-line parse results in input-line
order (a sublist of the per-line results). -/
theorem parseLogFile_invariants (content format : String) :
    (parseLogFile content format).parsedEntries ≤ (parseLogFile content format).totalLines
      ∧ (parseLogFile content format).totalLines = (jsLines content).length
      ∧ (parseLogFile content format).parsedEntries
          = (parseLogFile content format).entries.length
      ∧ ((parseLogFile content format).entries.map some).Sublist
          ((jsLines content).map (parseLine (resolvedFormat content format))) := by
  refine ⟨?_, rfl, rfl, ?_⟩
  · show (((jsLines content).map (parseLine (resolvedFormat content format))).filterMap
      id).length ≤ (jsLines content).length
    calc (((jsLines content).map (parseLine (resolvedFormat content format))).filterMap
            id).length
        ≤ ((jsLines content).map (parseLine (resolvedFormat content format))).length :=
          List.length_filterMap_le _ _
      _ = (jsLines content).length := List.length_map _ _
  · exact filterMap_id_map_some_sublist _

theorem parseLogFile_invariants_witness :
    (parseLogFile "x\n\ny" "text").parsedEntries ≤ (parseLogFile "x\n\ny" "text").totalLines :=
  (parseLogFile_invariants "x\n\ny" "text").1

/-- The first non-blank line of the content, when any. -/
def firstNonBlankLine (content : String) : Option String := (jsLines content).head?

/-- Classification of a first non-blank line: JSON, then the nginx pattern,
then the Apache pattern, with fallback text (and text when there is no
non-blank line). -/
def classifyFirst : Option String → String
  | none => "text"
  | some l =>
    if (jsonParse l).isSome then "json"
    else if (matchToks nginxToks l.toList).isSome then "nginx"
    else if (matchToks apacheToks l.toList).isSome then "apache"
    else "text"

/-- C6: detectFormat is a total deterministic function of the content that
depends only on the first non-blank line: contents with equal first
non-blank lines classify equally, contents with no non-blank line classify
as text, and the classification tries JSON, then the nginx pattern, then the
Apache pattern, with fallback text. -/
theorem detectFormat_first_line_only (c1 c2 : String)
    (h : firstNonBlankLine c1 = firstNonBlankLine c2) :
    detectFormat c1 = detectFormat c2
      ∧ (firstNonBlankLine c1 = none → detectFormat c1 = "text")
      ∧ detectFormat c1 = classifyFirst (firstNonBlankLine c1) := by
  have key : ∀ c : String, detectFormat c = classifyFirst (firstNonBlankLine c) := by
    intro c
    unfold detectFormat firstNonBlankLine
    cases jsLines c <;> simp [classifyFirst]
  refine ⟨?_, ?_, key c1⟩
  · rw [key c1, key c2, h]
  · intro hn; rw [key c1, hn]; rfl

theorem detectFormat_first_line_only_witness :
    detectFormat "192.168.1.1 x\n y" = detectFormat "192.168.1.1 x" :=
  (detectFormat_first_line_only "192.168.1.1 x\n y" "192.168.1.1 x" (by decide)).1

theorem filterMap_id_map_some {α β : Type} (g : α → β) (l : List α) :
    ((l.map (fun x => some (g x))).filterMap id) = l.map g := by
  induction l <;> simp_all [List.filterMap_cons]

/-- C10: a format selector that is none of json, nginx, apache, text or auto
falls into the default switch case and behaves exactly as the text format:
every non-blank line is wrapped verbatim as a raw record, parsedEntries
equals totalLines, and entries, totalLines and parsedEntries coincide with
the text-format parse. -/
theorem parseLogFile_unknown_selector (content fmt : String)
    (h1 : fmt ≠ "json") (h2 : fmt ≠ "nginx") (h3 : fmt ≠ "apache")
    (_h4 : fmt ≠ "text") (h5 : fmt ≠ "auto") :
    (parseLogFile content fmt).entries
        = (jsLines content).map (fun l => [("raw", Prim.pStr l)])
      ∧ (parseLogFile content fmt).parsedEntries = (parseLogFile content fmt).totalLines
      ∧ (parseLogFile content fmt).entries = (parseLogFile content "text").entries
      ∧ (parseLogFile content fmt).totalLines = (parseLogFile content "text").totalLines
      ∧ (parseLogFile content fmt).parsedEntries
          = (parseLogFile content "text").parsedEntries := by
  have hres : resolvedFormat content fmt = fmt := by
    simp [resolvedFormat, h5]
  have hline : parseLine fmt = fun l => some [("raw", Prim.pStr l)] := by
    funext l
    simp [parseLine, h1, h2, h3]
  have htext : parseLine "text" = fun l => some [("raw", Prim.pStr l)] := by
    funext l
    simp [parseLine]
  have he : (parseLogFile content fmt).entries
      = (jsLines content).map (fun l => [("raw", Prim.pStr l)]) := by
    show ((jsLines content).map (parseLine (resolvedFormat content fmt))).filterMap id
      = (jsLines content).map (fun l => [("raw", Prim.pStr l)])
    rw [hres, hline, filterMap_id_map_some]
  have hetext : (parseLogFile content "text").entries
      = (jsLines content).map (fun l => [("raw", Prim.pStr l)]) := by
    show ((jsLines content).map (parseLine (resolvedFormat content "text"))).filterMap id
      = (jsLines content).map (fun l => [("raw", Prim.pStr l)])
    have : resolvedFormat content "text" = "text" := by simp [resolvedFormat]
    rw [this, htext, filterMap_id_map_some]
  refine ⟨he, ?_, he.trans hetext.symm, rfl, ?_⟩
  · show (parseLogFile content fmt).entries.length = (jsLines content).length
    rw [he, List.length_map]
  · show (parseLogFile content fmt).entries.length = (parseLogFile content "text").entries.length
    rw [he, hetext]

theorem parseLogFile_unknown_selector_witness :
    (parseLogFile "a\n\nb" "xml").entries = [[("raw", Prim.pStr "a")], [("raw", Prim.pStr "b")]]
      ∧ (parseLogFile "a\n\nb" "xml").parsedEntries = (parseLogFile "a\n\nb" "xml").totalLines := by
  have h := parseLogFile_unknown_selector "a\n\nb" "xml" (by decide) (by decide) (by decide)
    (by decide) (by decide)
  refine ⟨?_, h.2.1⟩
  rw [h.1]
  decide

/-- Stable insertion before the first element whose count is not greater,
used to model the stable host sort with comparator b count minus a count. -/
def insertByCount (x : String × Nat) : List (String × Nat) → List (String × Nat)
  | [] => [x]
  | y :: ys => if x.2 < y.2 then y :: insertByCount x ys else x :: y :: ys

/-- The stable descending-by-count sort performed by the host sort call
(ECMAScript array sort is stable, and a stable sort under a total preorder
has a unique result, which insertion sort reproduces). -/
def sortByCountDesc (l : List (String × Nat)) : List (String × Nat) :=
  l.foldr insertByCount []

/-- Array-index-like property key: the canonical decimal form of an integer
below 2 to the 32 minus 1.  JavaScript objects iterate such keys first, in
ascending numeric order. -/
def isArrayIndexKey (s : String) : Bool :=
  !s.isEmpty && s.toList.all isJsonDigit
    && (s == "0" || s.toList.head? != some '0')
    && digitsVal s.toList < 4294967295

/-- Ascending-by-numeric-key insertion for the array-index keys. -/
def insertAscIndex (x : String × Nat) : List (String × Nat) → List (String × Nat)
  | [] => [x]
  | y :: ys =>
    if digitsVal y.1.toList < digitsVal x.1.toList then y :: insertAscIndex x ys
    else x :: y :: ys

/-- Models the JavaScript own-property enumeration order used by
Object.entries on a counts object: array-index-like keys first in ascending
numeric order, then the remaining keys in insertion order. -/
def jsObjEntries (m : List (String × Nat)) : List (String × Nat) :=
  (m.filter (fun p => isArrayIndexKey p.1)).foldr insertAscIndex []
    ++ m.filter (fun p => !isArrayIndexKey p.1)

/-- Two-digit zero padding (String(minute).padStart(2, zero)). -/
def pad2 (k : Nat) : String := if k < 10 then "0" ++ toString k else toString k

/-- Models (count / total * 100).toFixed(2) with a trailing percent sign over
the exact rational: the percentage in hundredths, rounded half-up, printed
with exactly two decimal digits.  The host computes with binary doubles; at
the values the claims exercise, the double and the exact rational round to
the same string. -/
def percentFixed2 (count total : Nat) : String :=
  let scaled := (count * 20000 + total) / (2 * total)
  toString (scaled / 100) ++ "." ++ pad2 (scaled % 100) ++ "%"

/-- Models the host date parsing of a string timestamp for ISO-8601 values
of the shape YYYY-MM-DDTHH:MM:SS with an optional Z suffix, read in UTC
(getHours and getMinutes read local time; a UTC environment is assumed).
Other host date formats — in particular the bracketed nginx/apache
timestamp, which the host Date constructor rejects — yield none, exactly as
an invalid date is skipped.  No claim exercises the time buckets. -/
def parseIsoHourMinute (s : String) : Option (Nat × Nat) :=
  match s.toList with
  | y1 :: y2 :: y3 :: y4 :: '-' :: m1 :: m2 :: '-' :: d1 :: d2 :: 'T' ::
      h1 :: h2 :: ':' :: mi1 :: mi2 :: ':' :: s1 :: s2 :: rest =>
    if [y1, y2, y3, y4, m1, m2, d1, d2, h1, h2, mi1, mi2, s1, s2].all isJsonDigit then
      let ok := match rest with
        | [] => true
        | ['Z'] => true
        | _ => false
      let mo := digitsVal [m1, m2]
      let dd := digitsVal [d1, d2]
      let hh := digitsVal [h1, h2]
      let mm := digitsVal [mi1, mi2]
      let ss := digitsVal [s1, s2]
      if ok && (1 ≤ mo && mo ≤ 12) && (1 ≤ dd && dd ≤ 31)
          && hh < 24 && mm < 60 && ss < 60 then
        some (hh, mm)
      else none
    else none
  | _ => none

/-- The two time-bucket maps of calculateTimeStats. -/
structure TimeStats where
  hour : List (String × Nat)
  minute : List (String × Nat)
deriving DecidableEq, Repr

/-- src/index.js calculateTimeStats: bucket entries by hour of day and by
hour:minute (minute zero-padded to two digits), silently skipping entries
whose timestamp is missing, falsy, non-string (outside the model) or does
not parse to a valid date. -/
def calculateTimeStats (entries : List Entry) : TimeStats :=
  entries.foldl
    (fun acc e =>
      match getField e "timestamp" with
      | some v =>
        if truthy v then
          match v with
          | Prim.pStr s =>
            match parseIsoHourMinute s with
            | some (hh, mm) =>
              { hour := bump acc.hour (toString hh),
                minute := bump acc.minute (toString hh ++ ":" ++ pad2 mm) }
            | none => acc
          | _ => acc
        else acc
      | none => acc)
    { hour := [], minute := [] }

/-- The field-detection loop of generateSummary: the union of all key sets
in first-occurrence order (Set iteration order). -/
def detectFields (entries : List Entry) : List String :=
  entries.foldl
    (fun acc e =>
      (e.map (fun p => p.1)).foldl (fun a k => if a.contains k then a else a ++ [k]) acc)
    []

/-- The fixed error status-code list of generateSummary. -/
def errorCodes : List Int := [400, 401, 403, 404, 500, 502, 503, 504]

/-- The summary record (spec section 3); the fields that the source attaches
only for nginx/apache formats (and timeStats, attached only on the non-empty
path) are Options, none modelling an absent key. -/
structure Summary where
  format : String
  totalEntries : Nat
  fieldsDetected : List String
  statusCounts : Option (List (String × Nat))
  errorCount : Option Nat
  errorRate : Option String
  clientErrors : Option Nat
  serverErrors : Option Nat
  topPaths : Option (List (String × Nat))
  timeStats : Option TimeStats
deriving DecidableEq, Repr

/-- src/index.js generateSummary. -/
def generateSummary (parsed : ParsedLog) : Summary :=
  let entries := parsed.entries
  let format := parsed.format
  if entries.isEmpty then
    { format := format, totalEntries := 0, fieldsDetected := []
    , statusCounts := none, errorCount := none, errorRate := none
    , clientErrors := none, serverErrors := none, topPaths := none, timeStats := none }
  else
    let isHttp := format == "nginx" || format == "apache"
    let errorEntries := filterByStatus entries errorCodes
    { format := format
    , totalEntries := entries.length
    , fieldsDetected := detectFields entries
    , statusCounts := if isHttp then some (aggregateByField entries "status") else none
    , errorCount := if isHttp then some errorEntries.length else none
    , errorRate :=
        if isHttp then some (percentFixed2 errorEntries.length entries.length) else none
    , clientErrors :=
        if isHttp then some (filterByStatus entries [400, 401, 403, 404]).length else none
    , serverErrors :=
        if isHttp then some (filterByStatus entries [500, 502, 503, 504]).length else none
    , topPaths :=
        if isHttp then
          some ((sortByCountDesc (jsObjEntries (aggregateByField entries "path"))).take 10)
        else none
    , timeStats := some (calculateTimeStats entries) }

/-- C8: on an empty entries sequence generateSummary returns only the format,
totalEntries 0 and an empty fieldsDetected; every optional statistics field
(statusCounts, errorCount, errorRate, clientErrors, serverErrors, topPaths,
timeStats) is absent, so no error-rate division is reached. -/
theorem generateSummary_empty (p : ParsedLog) (h : p.entries = []) :
    generateSummary p =
      { format := p.format, totalEntries := 0, fieldsDetected := []
      , statusCounts := none, errorCount := none, errorRate := none
      , clientErrors := none, serverErrors := none, topPaths := none, timeStats := none } := by
  simp [generateSummary, h]

theorem generateSummary_empty_witness :
    generateSummary { format := "nginx", entries := [], totalLines := 0, parsedEntries := 0 } =
      { format := "nginx", totalEntries := 0, fieldsDetected := []
      , statusCounts := none, errorCount := none, errorRate := none
      , clientErrors := none, serverErrors := none, topPaths := none, timeStats := none } :=
  generateSummary_empty { format := "nginx", entries := [], totalLines := 0, parsedEntries := 0 }
    rfl

/-- The five-line nginx log of spec scenario A, with statuses 200, 200, 404,
500, 403. -/
def scenAContent : String :=
  "192.168.1.1 - - [19/Feb/2026:10:00:00 +0000] \"GET /api/v1/users HTTP/1.1\" 200 1234 \"-\" \"Mozilla/5.0\"\n192.168.1.2 - - [19/Feb/2026:10:00:01 +0000] \"GET /api/v1/posts HTTP/1.1\" 200 567 \"https://example.com\" \"Mozilla/5.0\"\n192.168.1.3 - - [19/Feb/2026:10:00:02 +0000] \"GET /api/v1/nonexistent HTTP/1.1\" 404 89 \"-\" \"curl/7.68.0\"\n192.168.1.1 - - [19/Feb/2026:10:00:03 +0000] \"POST /api/v1/auth/login HTTP/1.1\" 500 234 \"-\" \"Mozilla/5.0\"\n192.168.1.4 - - [19/Feb/2026:10:00:04 +0000] \"GET /api/v1/users HTTP/1.1\" 403 45 \"-\" \"curl/7.68.0\""

/-- The summary of the parsed scenario-A log. -/
def scenASummary : Summary := generateSummary (parseLogFile scenAContent "nginx")

/-- C1 counterexample: the parsed scenario-A log has statuses 200, 200, 404,
500, 403, and its errorRate is the string for 60.00 percent (three of the
five statuses are in the fixed error list), not 80.00 percent as claimed. -/
theorem scenarioA_errorRate_counterexample :
    (parseLogFile scenAContent "nginx").entries.map (fun e => getField e "status")
        = [some (Prim.pInt 200), some (Prim.pInt 200), some (Prim.pInt 404),
           some (Prim.pInt 500), some (Prim.pInt 403)]
      ∧ scenASummary.errorRate = some "60.00%"
      ∧ scenASummary.errorRate ≠ some "80.00%" := by
  decide

/-- C1 (amended): for the parsed five-line nginx log with statuses 200, 200,
404, 500, 403, generateSummary returns statusCounts 200 to 2, 404 to 1, 500
to 1 and 403 to 1, clientErrors 2, serverErrors 1, errorCount 3 and
errorRate equal to the string for 60.00 percent (errorCount over
totalEntries times 100, formatted with exactly two decimal digits and a
trailing percent sign). -/
theorem scenarioA_summary :
    scenASummary.statusCounts = some [("200", 2), ("404", 1), ("500", 1), ("403", 1)]
      ∧ scenASummary.errorCount = some 3
      ∧ scenASummary.clientErrors = some 2
      ∧ scenASummary.serverErrors = some 1
      ∧ scenASummary.errorRate = some "60.00%"
      ∧ scenASummary.totalEntries = 5 := by
  decide

theorem insertByCount_perm (x : String × Nat) (l : List (String × Nat)) :
    (insertByCount x l).Perm (x :: l) := by
  induction l with
  | nil => exact List.Perm.refl _
  | cons y ys ih =>
    by_cases h : x.2 < y.2
    · simp only [insertByCount, h, if_true]
      exact (ih.cons y).trans (List.Perm.swap x y ys)
    · simp [insertByCount, h]

theorem sortByCountDesc_perm (l : List (String × Nat)) : (sortByCountDesc l).Perm l := by
  induction l with
  | nil => exact List.Perm.refl _
  | cons a t ih =>
    exact (insertByCount_perm a (sortByCountDesc t)).trans (ih.cons a)

theorem insertByCount_pairwise (x : String × Nat) (l : List (String × Nat))
    (h : l.Pairwise (fun a b => b.2 ≤ a.2)) :
    (insertByCount x l).Pairwise (fun a b => b.2 ≤ a.2) := by
  induction l with
  | nil => simp [insertByCount]
  | cons y ys ih =>
    rw [List.pairwise_cons] at h
    obtain ⟨hy, hys⟩ := h
    by_cases hlt : x.2 < y.2
    · simp only [insertByCount, hlt, if_true]
      rw [List.pairwise_cons]
      refine ⟨?_, ih hys⟩
      intro z hz
      have hmem : z ∈ x :: ys := (insertByCount_perm x ys).mem_iff.mp hz
      rcases List.mem_cons.mp hmem with hz2 | hz2
      · subst hz2; exact Nat.le_of_lt hlt
      · exact hy z hz2
    · simp only [insertByCount, hlt, if_false]
      rw [List.pairwise_cons]
      refine ⟨?_, List.pairwise_cons.mpr ⟨hy, hys⟩⟩
      intro z hz
      rcases List.mem_cons.mp hz with hz | hz
      · subst hz; exact Nat.le_of_not_lt hlt
      · exact Nat.le_trans (hy z hz) (Nat.le_of_not_lt hlt)

theorem sortByCountDesc_pairwise (l : List (String × Nat)) :
    (sortByCountDesc l).Pairwise (fun a b => b.2 ≤ a.2) := by
  induction l with
  | nil => simp [sortByCountDesc]
  | cons a t ih => exact insertByCount_pairwise a (sortByCountDesc t) ih

theorem insertByCount_filter (x : String × Nat) (l : List (String × Nat)) (n : Nat) :
    (insertByCount x l).filter (fun q => q.2 == n)
      = if x.2 == n then x :: l.filter (fun q => q.2 == n)
        else l.filter (fun q => q.2 == n) := by
  induction l with
  | nil =>
    by_cases h : x.2 == n <;> simp [insertByCount, List.filter, h]
  | cons y ys ih =>
    by_cases hlt : x.2 < y.2
    · simp only [insertByCount, hlt, if_true, List.filter_cons]
      by_cases hy : y.2 == n
      · have hxn : (x.2 == n) = false := by
          have hyn : y.2 = n := by simpa using hy
          have : x.2 ≠ n := by omega
          simpa using this
        simp [hy, hxn] at ih ⊢
        rw [ih]
      · simp [hy] at ih ⊢
        rw [ih]
    · simp only [insertByCount, hlt, if_false]
      by_cases hx : x.2 == n <;> simp [List.filter_cons, hx]

theorem sortByCountDesc_filter (l : List (String × Nat)) (n : Nat) :
    (sortByCountDesc l).filter (fun q => q.2 == n) = l.filter (fun q => q.2 == n) := by
  induction l with
  | nil => rfl
  | cons a t ih =>
    show (insertByCount a (sortByCountDesc t)).filter (fun q => q.2 == n) = _
    rw [insertByCount_filter, List.filter_cons]
    by_cases h : a.2 == n <;> simp [h, ih]

theorem bump_keys (c : List (String × Nat)) (k : String) :
    (bump c k).map (fun p => p.1)
      = if (c.map (fun p => p.1)).contains k then c.map (fun p => p.1)
        else c.map (fun p => p.1) ++ [k] := by
  induction c with
  | nil => simp [bump]
  | cons a rest ih =>
    obtain ⟨k', n⟩ := a
    by_cases h : k' == k
    · have : k' = k := by simpa using h
      subst this
      simp [bump, List.contains_cons]
    · have hke : (k == k') = false := by
        rw [beq_eq_false_iff_ne]
        intro hk
        exact h (by simp [hk])
      have hb : bump ((k', n) :: rest) k = (k', n) :: bump rest k := by
        simp [bump, h]
      rw [hb]
      simp only [List.map_cons, List.contains_cons, hke, Bool.false_or]
      rw [ih]
      by_cases h2 : (rest.map (fun p => p.1)).contains k = true
      · rw [if_pos h2, if_pos h2]
      · rw [if_neg h2, if_neg h2, List.cons_append]

/-- The bucket keys in the order their values are first encountered. -/
def firstSeenKeys (entries : List Entry) (field : String) : List String :=
  entries.foldl
    (fun acc e =>
      if acc.contains (aggValue e field) then acc else acc ++ [aggValue e field])
    []

theorem agg_foldl_keys (field : String) (l : List Entry) :
    ∀ acc : List (String × Nat),
      ((l.foldl (fun c e => bump c (aggValue e field)) acc).map (fun p => p.1))
        = l.foldl
            (fun a e => if a.contains (aggValue e field) then a else a ++ [aggValue e field])
            (acc.map (fun p => p.1)) := by
  induction l with
  | nil => intro acc; rfl
  | cons e t ih =>
    intro acc
    simp only [List.foldl_cons]
    rw [ih, bump_keys]

theorem aggregateByField_keys_first_seen (entries : List Entry) (field : String) :
    (aggregateByField entries field).map (fun p => p.1) = firstSeenKeys entries field := by
  have h := agg_foldl_keys field entries []
  simpa [aggregateByField, firstSeenKeys] using h

theorem jsObjEntries_id_of_no_index (m : List (String × Nat))
    (h : ∀ p ∈ m, isArrayIndexKey p.1 = false) : jsObjEntries m = m := by
  have h1 : m.filter (fun p => isArrayIndexKey p.1) = [] := by
    rw [List.filter_eq_nil_iff]
    intro p hp
    simp [h p hp]
  have h2 : m.filter (fun p => !isArrayIndexKey p.1) = m := by
    rw [List.filter_eq_self]
    intro p hp
    simp [h p hp]
  rw [jsObjEntries, h1, h2]
  rfl

/-- C7 (amended): for every non-empty nginx or apache ParsedLog, topPaths is
the stable descending-by-count sort of the path counts enumerated in
JavaScript own-key order — array-index-like numeric path keys first in
ascending numeric order, then the remaining keys in first-encounter order —
truncated to at most 10 pairs: the sorted list is a permutation of the
enumerated counts, descending in count, ties preserve the enumeration
order, the enumeration equals the counts themselves when no path key is
array-index-like, and the counts list carries the keys in first-encounter
order. -/
theorem generateSummary_topPaths (p : ParsedLog)
    (hfmt : p.format = "nginx" ∨ p.format = "apache") (hne : p.entries ≠ []) :
    ∃ sorted : List (String × Nat),
      (generateSummary p).topPaths = some (sorted.take 10)
        ∧ sorted.Perm (jsObjEntries (aggregateByField p.entries "path"))
        ∧ sorted.Pairwise (fun a b => b.2 ≤ a.2)
        ∧ (∀ n : Nat, sorted.filter (fun q => q.2 == n)
            = (jsObjEntries (aggregateByField p.entries "path")).filter (fun q => q.2 == n))
        ∧ ((∀ q ∈ aggregateByField p.entries "path", isArrayIndexKey q.1 = false) →
            jsObjEntries (aggregateByField p.entries "path")
              = aggregateByField p.entries "path")
        ∧ (aggregateByField p.entries "path").map (fun q => q.1)
            = firstSeenKeys p.entries "path" := by
  refine ⟨sortByCountDesc (jsObjEntries (aggregateByField p.entries "path")), ?_,
    sortByCountDesc_perm _, sortByCountDesc_pairwise _,
    fun n => sortByCountDesc_filter _ n,
    jsObjEntries_id_of_no_index _,
    aggregateByField_keys_first_seen _ _⟩
  have hemp : p.entries.isEmpty = false := by
    simpa [List.isEmpty_iff] using hne
  have hhttp : (p.format == "nginx" || p.format == "apache") = true := by
    rcases hfmt with h | h <;> simp [h]
  simp [generateSummary, hemp, hhttp]

/-- A two-entry nginx log whose paths are the numeric strings 7 (first seen)
and 3, each occurring once. -/
def c7Log : ParsedLog :=
  { format := "nginx"
  , entries := [[("path", Prim.pStr "7")], [("path", Prim.pStr "3")]]
  , totalLines := 2, parsedEntries := 2 }

/-- C7 counterexample: with tied counts on the array-index-like paths 7
(first encountered) and 3, topPaths lists 3 before 7 — the JavaScript
own-key enumeration places array-index-like keys first in ascending numeric
order — refuting the claimed first-encounter tie order for all entry
lists. -/
theorem generateSummary_topPaths_counterexample :
    (generateSummary c7Log).topPaths = some [("3", 1), ("7", 1)]
      ∧ (generateSummary c7Log).topPaths ≠ some [("7", 1), ("3", 1)] := by
  decide

/-- The 2 + 2 + 1 scenario of the claim, with non-numeric paths. -/
def c7WitnessLog : ParsedLog :=
  { format := "nginx"
  , entries := [[("path", Prim.pStr "/a")], [("path", Prim.pStr "/b")],
                [("path", Prim.pStr "/a")], [("path", Prim.pStr "/b")],
                [("path", Prim.pStr "/c")]]
  , totalLines := 5, parsedEntries := 5 }

theorem generateSummary_topPaths_witness :
    (∃ sorted : List (String × Nat),
      (generateSummary c7WitnessLog).topPaths = some (sorted.take 10)
        ∧ sorted.Perm (jsObjEntries (aggregateByField c7WitnessLog.entries "path"))
        ∧ sorted.Pairwise (fun a b => b.2 ≤ a.2)
        ∧ (∀ n : Nat, sorted.filter (fun q => q.2 == n)
            = (jsObjEntries (aggregateByField c7WitnessLog.entries "path")).filter
                (fun q => q.2 == n))
        ∧ ((∀ q ∈ aggregateByField c7WitnessLog.entries "path", isArrayIndexKey q.1 = false) →
            jsObjEntries (aggregateByField c7WitnessLog.entries "path")
              = aggregateByField c7WitnessLog.entries "path")
        ∧ (aggregateByField c7WitnessLog.entries "path").map (fun q => q.1)
            = firstSeenKeys c7WitnessLog.entries "path")
      ∧ (generateSummary c7WitnessLog).topPaths = some [("/a", 2), ("/b", 2), ("/c", 1)] :=
  ⟨generateSummary_topPaths c7WitnessLog (Or.inl rfl) (by decide), by decide⟩

/-- Regular-expression AST for the modelled subset of the host pattern
grammar used by filterEntries: literals, the dot, bracket classes with
ranges and negation, the predefined classes, escapes, grouping, alternation,
the star, plus, question and brace quantifiers, and anchors at the pattern
boundary.  Matching is case-insensitive throughout, as filterEntries always
compiles with the i flag. -/
inductive RE where
  | eps
  | nul
  | ch (c : Char)
  | cls (neg : Bool) (ranges : List (Char × Char))
  | alt (r1 r2 : RE)
  | seq (r1 r2 : RE)
  | star (r : RE)
deriving DecidableEq, Repr

def RE.nullable : RE → Bool
  | .eps => true
  | .nul => false
  | .ch _ => false
  | .cls _ _ => false
  | .alt r1 r2 => r1.nullable || r2.nullable
  | .seq r1 r2 => r1.nullable && r2.nullable
  | .star _ => true

def clsMatch1 (ranges : List (Char × Char)) (c : Char) : Bool :=
  ranges.any (fun r => r.1 ≤ c && c ≤ r.2)

/-- Case-insensitive class membership: the character or one of its simple
case variants lies in one of the ranges. -/
def clsMatch (neg : Bool) (ranges : List (Char × Char)) (c : Char) : Bool :=
  let hit := clsMatch1 ranges c || clsMatch1 ranges c.toLower || clsMatch1 ranges c.toUpper
  if neg then !hit else hit

/-- Brzozowski derivative with case-insensitive character comparison. -/
def RE.deriv (a : Char) : RE → RE
  | .eps => .nul
  | .nul => .nul
  | .ch c => if a == c || a.toLower == c.toLower then .eps else .nul
  | .cls neg ranges => if clsMatch neg ranges a then .eps else .nul
  | .alt r1 r2 => .alt (r1.deriv a) (r2.deriv a)
  | .seq r1 r2 =>
    if r1.nullable then .alt (.seq (r1.deriv a) r2) (r2.deriv a)
    else .seq (r1.deriv a) r2
  | .star r => .seq (r.deriv a) (.star r)

/-- Whole-input match by iterated derivatives. -/
def matchRE (r : RE) (s : List Char) : Bool :=
  (s.foldl (fun acc c => RE.deriv c acc) r).nullable

/-- regex.test on a string value. -/
def reTest (r : RE) (s : String) : Bool := matchRE r s.toList

/-- The dot: any character except the four line terminators. -/
def dotRE : RE :=
  RE.cls true [('\n', '\n'), ('\r', '\r'), (Char.ofNat 0x2028, Char.ofNat 0x2029)]

/-- Zero or more arbitrary characters (negated empty class, starred). -/
def trueAnyStar : RE := RE.star (RE.cls true [])

def jsD : List (Char × Char) := [('0', '9')]

def jsW : List (Char × Char) := [('0', '9'), ('a', 'z'), ('A', 'Z'), ('_', '_')]

def jsSranges : List (Char × Char) :=
  jsSpaceCodes.map (fun n => (Char.ofNat n, Char.ofNat n))
    ++ [(Char.ofNat 0x2000, Char.ofNat 0x200a)]

/-- The class escapes: marker letter, negation flag of the upper-case
variant when it exists, and ranges. -/
def perlRanges (e : Char) : Option (Bool × List (Char × Char)) :=
  if e == 'd' then some (false, jsD)
  else if e == 'D' then some (true, jsD)
  else if e == 'w' then some (false, jsW)
  else if e == 'W' then some (true, jsW)
  else if e == 's' then some (false, jsSranges)
  else if e == 'S' then some (true, jsSranges)
  else none

/-- Control-character escapes of the pattern grammar. -/
def reEscChar : List (Char × Char) :=
  [('n', Char.ofNat 10), ('r', Char.ofNat 13), ('t', Char.ofNat 9),
   ('f', Char.ofNat 12), ('v', Char.ofNat 11), ('0', Char.ofNat 0)]

/-- Escape sequences usable as atoms; other alphanumeric escapes (word
boundaries, back references, unicode escapes) are outside the modelled
subset and make the compile fail. -/
def escAtom (e : Char) : Option RE :=
  match perlRanges e with
  | some (neg, rs) => some (RE.cls neg rs)
  | none =>
    match (reEscChar.find? (fun p => p.1 == e)).map (fun p => p.2) with
    | some c => some (RE.ch c)
    | none => if e.isAlphanum then none else some (RE.ch e)

/-- Multi-range class escapes valid inside a bracket class (the negated
variants are outside the modelled subset there). -/
def clsEsc (e : Char) : Option (List (Char × Char)) :=
  match perlRanges e with
  | some (false, rs) => some rs
  | _ => none

/-- Single-character escapes valid inside a bracket class (backslash-b is
backspace there); other alphanumeric escapes are outside the subset. -/
def clsChar (e : Char) : Option Char :=
  match (reEscChar.find? (fun p => p.1 == e)).map (fun p => p.2) with
  | some c => some c
  | none =>
    if e == 'b' then some (Char.ofNat 8)
    else if e.isAlphanum then none
    else some e

mutual

/-- Items of a bracket class up to the closing bracket (a bracket directly
after the opening one closes an empty class, as in the host grammar). -/
def parseClsItems : Nat → List Char → Option (List (Char × Char) × List Char)
  | 0, _ => none
  | fuel + 1, s =>
    match s with
    | [] => none
    | ']' :: rest => some ([], rest)
    | '\\' :: e :: rest =>
      match clsEsc e with
      | some ranges => (parseClsItems fuel rest).map (fun p => (ranges ++ p.1, p.2))
      | none =>
        match clsChar e with
        | none => none
        | some c => parseClsAfterChar fuel c rest
    | '\\' :: [] => none
    | c :: rest => parseClsAfterChar fuel c rest

/-- Continue a class after one concrete character: either a range (invalid
when out of order, as in the host) or a singleton. -/
def parseClsAfterChar : Nat → Char → List Char → Option (List (Char × Char) × List Char)
  | 0, _, _ => none
  | fuel + 1, c, s =>
    match s with
    | '-' :: d :: rest =>
      if d == ']' then
        (parseClsItems fuel ('-' :: d :: rest)).map (fun p => ((c, c) :: p.1, p.2))
      else
        match
          (if d == '\\' then
            match rest with
            | e :: rest2 => (clsChar e).map (fun c2 => (c2, rest2))
            | [] => none
          else some (d, rest)) with
        | none => none
        | some (c2, rest2) =>
          if c.toNat ≤ c2.toNat then
            (parseClsItems fuel rest2).map (fun p => ((c, c2) :: p.1, p.2))
          else none
    | _ => (parseClsItems fuel s).map (fun p => ((c, c) :: p.1, p.2))

end

/-- n-fold repetition. -/
def repeatRE (r : RE) : Nat → RE
  | 0 => RE.eps
  | n + 1 => RE.seq r (repeatRE r n)

def optRE (r : RE) : RE := RE.alt r RE.eps

/-- The body of a brace quantifier: low bound, optional high bound, rest. -/
def parseBraceQuant (s : List Char) : Option (Nat × Option Nat × List Char) :=
  let (d1, r1) := s.span isJsonDigit
  if d1.isEmpty then none
  else
    match r1 with
    | '\x7d' :: rest => some (digitsVal d1, some (digitsVal d1), rest)
    | ',' :: r2 =>
      match r2 with
      | '\x7d' :: rest => some (digitsVal d1, none, rest)
      | _ =>
        let (d2, r3) := r2.span isJsonDigit
        if d2.isEmpty then none
        else
          match r3 with
          | '\x7d' :: rest => some (digitsVal d1, some (digitsVal d2), rest)
          | _ => none
    | _ => none

/-- Strip a laziness marker after a quantifier; laziness does not change
whether test matches, only captures, so it is accepted and ignored. -/
def skipLazy : List Char → List Char
  | '?' :: rest => rest
  | s => s

/-- Apply an optional quantifier following an atom.  A brace that does not
form a valid quantifier is left for the next atom (a literal brace, as in
the host Annex B grammar); bounds out of order are invalid. -/
def applyQuant (r : RE) (s : List Char) : Option (RE × List Char) :=
  match s with
  | '*' :: rest => some (RE.star r, skipLazy rest)
  | '+' :: rest => some (RE.seq r (RE.star r), skipLazy rest)
  | '?' :: rest => some (optRE r, skipLazy rest)
  | '\x7b' :: rest =>
    match parseBraceQuant rest with
    | some (lo, some hi, rest2) =>
      if lo ≤ hi then
        some (RE.seq (repeatRE r lo) (repeatRE (optRE r) (hi - lo)), skipLazy rest2)
      else none
    | some (lo, none, rest2) => some (RE.seq (repeatRE r lo) (RE.star r), skipLazy rest2)
    | none => some (r, s)
  | _ => some (r, s)

mutual

/-- Alternation level of the pattern grammar. -/
def parseAltRE : Nat → List Char → Option (RE × List Char)
  | 0, _ => none
  | fuel + 1, s =>
    match parseConcatRE fuel s with
    | none => none
    | some (r, rest) =>
      match rest with
      | '|' :: rest2 => (parseAltRE fuel rest2).map (fun p => (RE.alt r p.1, p.2))
      | _ => some (r, rest)

/-- Concatenation level: pieces until the end, a closing parenthesis or an
alternation bar. -/
def parseConcatRE : Nat → List Char → Option (RE × List Char)
  | 0, _ => none
  | fuel + 1, s =>
    match s with
    | [] => some (RE.eps, [])
    | ')' :: _ => some (RE.eps, s)
    | '|' :: _ => some (RE.eps, s)
    | _ =>
      match parsePieceRE fuel s with
      | none => none
      | some (r, rest) => (parseConcatRE fuel rest).map (fun p => (RE.seq r p.1, p.2))

/-- One piece: an atom with an optional quantifier. -/
def parsePieceRE : Nat → List Char → Option (RE × List Char)
  | 0, _ => none
  | fuel + 1, s =>
    match parseAtomRE fuel s with
    | none => none
    | some (r, rest) => applyQuant r rest

/-- One atom: a group, a bracket class, an escape, the dot or a literal.  A
quantifier with nothing to repeat, a stray closing parenthesis and an anchor
away from the pattern boundary are invalid (the latter is a restriction of
the modelled subset). -/
def parseAtomRE : Nat → List Char → Option (RE × List Char)
  | 0, _ => none
  | fuel + 1, s =>
    match s with
    | [] => none
    | c :: rest =>
      if c == '(' then
        match rest with
        | '?' :: _ => none
        | _ =>
          match parseAltRE fuel rest with
          | some (r, ')' :: rest2) => some (r, rest2)
          | _ => none
      else if c == '[' then
        match rest with
        | '^' :: rest2 => (parseClsItems fuel rest2).map (fun p => (RE.cls true p.1, p.2))
        | _ => (parseClsItems fuel rest).map (fun p => (RE.cls false p.1, p.2))
      else if c == '\\' then
        match rest with
        | [] => none
        | e :: rest2 => (escAtom e).map (fun r => (r, rest2))
      else if c == '*' || c == '+' || c == '?' || c == ')' || c == '|' then none
      else if c == '.' then some (dotRE, rest)
      else if c == '^' || c == '$' then none
      else some (RE.ch c, rest)

end

/-- Compile a pattern as new RegExp(pattern, i flag) over the modelled
subset; none models the thrown SyntaxError.  The compiled value denotes the
whole-input language of the unanchored search performed by test, so the
pattern body is wrapped in leading and trailing match-anything stars unless
anchored at that end. -/
def compileRegexI (pattern : String) : Option RE :=
  let cs := pattern.toList
  let (anchS, cs1) := match cs with | '^' :: r => (true, r) | _ => (false, cs)
  let (anchE, cs2) :=
    match cs1.reverse with
    | '$' :: ('\\' :: _) => (false, cs1)
    | '$' :: r => (true, r.reverse)
    | _ => (false, cs1)
  match parseAltRE (4 * cs2.length + 8) cs2 with
  | some (r, []) =>
    some (RE.seq (if anchS then RE.eps else trueAnyStar)
      (RE.seq r (if anchE then RE.eps else trueAnyStar)))
  | _ => none

def hexDigit (n : Nat) : String :=
  String.singleton (if n < 10 then Char.ofNat ('0'.toNat + n) else Char.ofNat ('a'.toNat + n - 10))

/-- The short escapes JSON.stringify emits inside string values (the
solidus, unlike in the parse direction, stays unescaped). -/
def jsonOutEsc : List (Char × Char) :=
  jsonEscPairs.filter (fun p => p.2 != '/')

/-- The escaping JSON.stringify applies inside string values. -/
def jsonEscChar (c : Char) : String :=
  match (jsonOutEsc.find? (fun p => p.2 == c)).map (fun p => p.1) with
  | some e => String.mk ['\\', e]
  | none =>
    if c.toNat < 32 then "\\u00" ++ hexDigit (c.toNat / 16) ++ hexDigit (c.toNat % 16)
    else String.singleton c

def jsonQuote (s : String) : String :=
  "\"" ++ String.join (s.toList.map jsonEscChar) ++ "\""

/-- JSON.stringify of a scalar value. -/
def jsonStringifyPrim : Prim → String
  | .pStr s => jsonQuote s
  | .pInt n => toString n
  | .pBool b => if b then "true" else "false"
  | .pNull => "null"

/-- JSON.stringify of an entry record, keys in property order. -/
def jsonStringify (e : Entry) : String :=
  "\x7b"
    ++ String.intercalate "," (e.map (fun p => jsonQuote p.1 ++ ":" ++ jsonStringifyPrim p.2))
    ++ "\x7d"

/-- The per-entry predicate of filterEntries: with a truthy field argument
the regex is tested against the string form of that field (undefined and
null values excluded before the coercion); otherwise — including the falsy
empty-string field name — against the serialized entry. -/
def entryMatches (re : RE) (field : Option String) (entry : Entry) : Bool :=
  match field with
  | some f =>
    if f ≠ "" then
      match getField entry f with
      | none => false
      | some Prim.pNull => false
      | some v => reTest re (jsToString v)
    else reTest re (jsonStringify entry)
  | none => reTest re (jsonStringify entry)

/-- src/index.js filterEntries: compile the pattern case-insensitively — a
failure models the SyntaxError thrown by the regex constructor, before any
entry is examined — then filter the entries by the predicate. -/
def filterEntries (entries : List Entry) (pattern : String) (field : Option String) :
    Except String (List Entry) :=
  match compileRegexI pattern with
  | none => Except.error "Invalid regular expression"
  | some re => Except.ok (entries.filter (entryMatches re field))

/-- C5 (amended): filterEntries fails exactly when the pattern does not
compile, independently of the entries (the failure precedes any entry
examination); on success it returns the ordered subsequence of entries
matching the case-insensitive regex — tested against the string form of the
named field when a non-empty field name is given, entries with an absent or
null field excluded without error, and against the serialized JSON
representation when the field is omitted or empty (the code treats the
falsy empty-string field name as omitted) — preserving relative order. -/
theorem filterEntries_spec (entries : List Entry) (pattern : String) (field : Option String) :
    ((filterEntries entries pattern field).isOk = (compileRegexI pattern).isSome)
      ∧ ((filterEntries entries pattern field).isOk = (filterEntries [] pattern field).isOk)
      ∧ (∀ re, compileRegexI pattern = some re →
          filterEntries entries pattern field
            = Except.ok (entries.filter (entryMatches re field)))
      ∧ (∀ res, filterEntries entries pattern field = Except.ok res → res.Sublist entries) := by
  unfold filterEntries
  cases h : compileRegexI pattern with
  | none =>
    refine ⟨rfl, rfl, fun re hre => by simp_all, fun res hres => by simp_all⟩
  | some re =>
    refine ⟨rfl, rfl, fun re' hre' => ?_, fun res hres => ?_⟩
    · cases Option.some.inj hre'
      rfl
    · cases hres
      exact List.filter_sublist entries

theorem filterEntries_spec_witness :
    filterEntries [[("level", Prim.pStr "error")], [("level", Prim.pStr "info")]] "err"
        (some "level")
      = Except.ok [[("level", Prim.pStr "error")]] := by
  have h := (filterEntries_spec [[("level", Prim.pStr "error")], [("level", Prim.pStr "info")]]
    "err" (some "level")).2.2.1 ((compileRegexI "err").getD RE.nul) (by decide)
  rw [h]
  rfl

/-- The entry of the C5 counterexample: its only key is the empty string. -/
def c5Entry : Entry := [("", Prim.pStr "q")]

/-- C5 counterexample: with the given field name the empty string, the code
tests the serialized entry (the empty-string field name is falsy), so the
colon pattern keeps an entry whose named-field string form does not match
the pattern at all — refuting the claim that a given field is always the
one tested. -/
theorem filterEntries_claim_counterexample :
    filterEntries [c5Entry] ":" (some "") = Except.ok [c5Entry]
      ∧ (compileRegexI ":").isSome = true
      ∧ reTest ((compileRegexI ":").getD RE.nul) (jsToString (Prim.pStr "q")) = false
      ∧ getField c5Entry "" = some (Prim.pStr "q") := by
  refine ⟨?_, by decide, by decide, by decide⟩
  rfl
